import Mathlib

/-!
Verification of the rmailer MIME composer and SMTP transport
(`rmailer.go`), as a shallow embedding in Lean.

Go strings are modelled as `List Char`, raw byte slices (`[]byte`) as
`List Nat` whose elements are intended to lie below 256.  The random
boundary token produced by `multipart.NewWriter` and the iteration order
of the `Attachments` map are the only sources of nondeterminism in
`Message.ToBytes`; both are passed to the embedding explicitly (the
boundary as a `List Char` argument, the iteration order as the order of
the association list that models the map).
-/

/-- The standard base64 alphabet used by Go's `base64.StdEncoding`. -/
def b64alpha : List Char :=
  "ABCDEFGHIJKLMNOPQRSTUVWXYZabcdefghijklmnopqrstuvwxyz0123456789+/".data

/-- Character of the alphabet at index `n` (Go's `alphabet[n]`; callers
always pass `n < 64`, the default is never reached). -/
def b64char (n : Nat) : Char := b64alpha.getD n '='

/-- Index of a character in the alphabet (the inverse lookup a standard
base64 decoder performs). -/
def b64val (c : Char) : Nat := b64alpha.indexOf c

/-- Go's `base64.StdEncoding.Encode`: three input bytes become four
alphabet characters; a tail of one or two bytes is padded with `=`.
The arithmetic mirrors the shifts `val>>18&0x3F`, `val>>12&0x3F`,
`val>>6&0x3F`, `val&0x3F` on `val = b0<<16 | b1<<8 | b2`. -/
def b64encode : List Nat → List Char
  | b0 :: b1 :: b2 :: rest =>
    let n := b0 * 65536 + b1 * 256 + b2
    b64char (n / 262144 % 64) :: b64char (n / 4096 % 64) ::
      b64char (n / 64 % 64) :: b64char (n % 64) :: b64encode rest
  | [b0, b1] =>
    let n := b0 * 65536 + b1 * 256
    [b64char (n / 262144 % 64), b64char (n / 4096 % 64), b64char (n / 64 % 64), '=']
  | [b0] =>
    let n := b0 * 65536
    [b64char (n / 262144 % 64), b64char (n / 4096 % 64), '=', '=']
  | [] => []

/-- Standard (RFC 4648) base64 decoding of a padded encoding: four
characters yield three bytes, a final `xy==` quadruple one byte and a
final `xyz=` quadruple two bytes.  Inputs whose length is not a multiple
of four are rejected. -/
def b64decode : List Char → Option (List Nat)
  | c0 :: c1 :: c2 :: c3 :: rest =>
    if rest = [] ∧ c3 = '=' then
      if c2 = '=' then
        some [(b64val c0 * 4 + b64val c1 / 16) % 256]
      else
        some [(b64val c0 * 4 + b64val c1 / 16) % 256,
              (b64val c1 % 16 * 16 + b64val c2 / 4) % 256]
    else
      match b64decode rest with
      | some t =>
        let n := b64val c0 * 262144 + b64val c1 * 4096 + b64val c2 * 64 + b64val c3
        some (n / 65536 % 256 :: n / 256 % 256 :: n % 256 :: t)
      | none => none
  | [] => some []
  | _ => none

/-- The loop of `ToBytes` that writes the base64 characters of an
attachment body: each character is written, and after every character
whose 1-based index is a multiple of 76 the line terminator `\r\n`
(`BackLine`) is written. -/
def wrapAux : List Char → Nat → List Char
  | [], _ => []
  | c :: rest, i =>
    c :: (if (i + 1) % 76 = 0 then '\r' :: '\n' :: wrapAux rest (i + 1)
          else wrapAux rest (i + 1))

/-- The wrapping loop started at index 0, as `ToBytes` does. -/
def wrap76 (s : List Char) : List Char := wrapAux s 0

/-- Removal of every carriage return and line feed, the inverse of the
line wrapping performed on an attachment body. -/
def stripCRLF (l : List Char) : List Char :=
  l.filter (fun c => !(c == '\r' || c == '\n'))

/-- The characters a base64 encoder may emit: the alphabet plus padding. -/
def b64charset : List Char := b64alpha ++ ['=']

example : b64encode [77, 97, 110] = "TWFu".data := by decide
example : b64encode [77, 97] = "TWE=".data := by decide
example : b64encode [77] = "TQ==".data := by decide
example : b64decode "TWFu".data = some [77, 97, 110] := by decide
example : b64decode "TWE=".data = some [77, 97] := by decide
example : b64decode "TQ==".data = some [77] := by decide
example : wrap76 (List.replicate 77 'a') =
    List.replicate 76 'a' ++ '\r' :: '\n' :: ['a'] := by decide

lemma b64char_ne_pad {x : Nat} (hx : x < 64) : b64char x ≠ '=' := by
  have h : ∀ i : Fin 64, b64char i.val ≠ '=' := by decide
  exact h ⟨x, hx⟩

lemma b64val_b64char {x : Nat} (hx : x < 64) : b64val (b64char x) = x := by
  have h : ∀ i : Fin 64, b64val (b64char i.val) = i.val := by decide
  exact h ⟨x, hx⟩

lemma b64char_mem_charset (x : Nat) : b64char x ∈ b64charset := by
  by_cases hx : x < 64
  · have h : ∀ i : Fin 64, b64char i.val ∈ b64charset := by decide
    exact h ⟨x, hx⟩
  · have hlen : b64alpha.length ≤ x := by
      have h64 : b64alpha.length = 64 := by decide
      omega
    have hc : b64char x = '=' := by
      simp [b64char, List.getD_eq_default, List.getElem?_eq_none hlen]
    rw [hc]
    simp [b64charset]

lemma pad_mem_charset : '=' ∈ b64charset := by decide

/-- Every character emitted by the base64 encoder lies in the base64
character set (alphabet or padding). -/
lemma b64encode_subset : ∀ (v : List Nat), ∀ c ∈ b64encode v, c ∈ b64charset
  | [] => by simp [b64encode]
  | [b0] => by
    intro c hc
    simp only [b64encode, List.mem_cons] at hc
    rcases hc with h | h | h | h | h
    · subst h; exact b64char_mem_charset _
    · subst h; exact b64char_mem_charset _
    · subst h; exact pad_mem_charset
    · subst h; exact pad_mem_charset
    · simp at h
  | [b0, b1] => by
    intro c hc
    simp only [b64encode, List.mem_cons] at hc
    rcases hc with h | h | h | h | h
    · subst h; exact b64char_mem_charset _
    · subst h; exact b64char_mem_charset _
    · subst h; exact b64char_mem_charset _
    · subst h; exact pad_mem_charset
    · simp at h
  | b0 :: b1 :: b2 :: rest => by
    intro c hc
    simp only [b64encode, List.mem_cons] at hc
    rcases hc with h | h | h | h | h
    · subst h; exact b64char_mem_charset _
    · subst h; exact b64char_mem_charset _
    · subst h; exact b64char_mem_charset _
    · subst h; exact b64char_mem_charset _
    · exact b64encode_subset rest c h

/-- Base-64 digit expansion: the four sextets of a 24-bit value
reassemble to that value. -/
lemma b64_digits (N : Nat) (hN : N < 16777216) :
    N / 262144 % 64 * 262144 + N / 4096 % 64 * 4096 + N / 64 % 64 * 64 + N % 64 = N := by
  omega

/-- Decoding inverts encoding: the fundamental base64 round-trip, for
any list of genuine bytes (each below 256). -/
theorem b64decode_b64encode : ∀ (v : List Nat), (∀ b ∈ v, b < 256) →
    b64decode (b64encode v) = some v
  | [] => by intro _; rfl
  | [b0] => by
    intro h
    have hb0 : b0 < 256 := h b0 (by simp)
    simp only [b64encode, b64decode]
    rw [if_pos (⟨trivial, trivial⟩ : True ∧ True)]
    have h1 : b0 * 65536 / 262144 % 64 < 64 := Nat.mod_lt _ (by omega)
    have h2 : b0 * 65536 / 4096 % 64 < 64 := Nat.mod_lt _ (by omega)
    rw [b64val_b64char h1, b64val_b64char h2]
    have e0 : (b0 * 65536 / 262144 % 64 * 4 + b0 * 65536 / 4096 % 64 / 16) % 256 = b0 := by
      omega
    rw [e0]
    rw [if_pos trivial]
  | [b0, b1] => by
    intro h
    have hb0 : b0 < 256 := h b0 (by simp)
    have hb1 : b1 < 256 := h b1 (by simp)
    simp only [b64encode, b64decode]
    rw [if_pos (⟨trivial, trivial⟩ : True ∧ True)]
    rw [if_neg (b64char_ne_pad (Nat.mod_lt _ (by omega)))]
    have h1 : (b0 * 65536 + b1 * 256) / 262144 % 64 < 64 := Nat.mod_lt _ (by omega)
    have h2 : (b0 * 65536 + b1 * 256) / 4096 % 64 < 64 := Nat.mod_lt _ (by omega)
    have h3 : (b0 * 65536 + b1 * 256) / 64 % 64 < 64 := Nat.mod_lt _ (by omega)
    rw [b64val_b64char h1, b64val_b64char h2, b64val_b64char h3]
    have e0 : ((b0 * 65536 + b1 * 256) / 262144 % 64 * 4 +
        (b0 * 65536 + b1 * 256) / 4096 % 64 / 16) % 256 = b0 := by omega
    have e1 : ((b0 * 65536 + b1 * 256) / 4096 % 64 % 16 * 16 +
        (b0 * 65536 + b1 * 256) / 64 % 64 / 4) % 256 = b1 := by omega
    rw [e0, e1]
  | b0 :: b1 :: b2 :: rest => by
    intro h
    have hb0 : b0 < 256 := h b0 (by simp)
    have hb1 : b1 < 256 := h b1 (by simp)
    have hb2 : b2 < 256 := h b2 (by simp)
    have ih := b64decode_b64encode rest (fun b hb => h b (by simp [hb]))
    simp only [b64encode, b64decode]
    rw [if_neg (fun hcon => b64char_ne_pad (Nat.mod_lt _ (by omega)) hcon.2)]
    rw [ih]
    have h1 : (b0 * 65536 + b1 * 256 + b2) / 262144 % 64 < 64 := Nat.mod_lt _ (by omega)
    have h2 : (b0 * 65536 + b1 * 256 + b2) / 4096 % 64 < 64 := Nat.mod_lt _ (by omega)
    have h3 : (b0 * 65536 + b1 * 256 + b2) / 64 % 64 < 64 := Nat.mod_lt _ (by omega)
    have h4 : (b0 * 65536 + b1 * 256 + b2) % 64 < 64 := Nat.mod_lt _ (by omega)
    rw [b64val_b64char h1, b64val_b64char h2, b64val_b64char h3, b64val_b64char h4]
    rw [b64_digits (b0 * 65536 + b1 * 256 + b2) (by omega)]
    have e0 : (b0 * 65536 + b1 * 256 + b2) / 65536 % 256 = b0 := by omega
    have e1 : (b0 * 65536 + b1 * 256 + b2) / 256 % 256 = b1 := by omega
    have e2 : (b0 * 65536 + b1 * 256 + b2) % 256 = b2 := by omega
    rw [e0, e1, e2]

/-- Stripping CR/LF from the wrapped output recovers the input, as long
as the input itself contains no CR or LF. -/
lemma stripCRLF_wrapAux : ∀ (s : List Char) (i : Nat),
    (∀ c ∈ s, c ≠ '\r' ∧ c ≠ '\n') → stripCRLF (wrapAux s i) = s
  | [], _ => by intro _; rfl
  | c :: rest, i => by
    intro h
    have hc := h c (by simp)
    have ih := stripCRLF_wrapAux rest (i + 1) (fun d hd => h d (by simp [hd]))
    simp only [stripCRLF] at ih ⊢
    have hkeep : (!(c == '\r' || c == '\n')) = true := by
      simp [hc.1, hc.2]
    have hr : (!(('\r' : Char) == '\r' || ('\r' : Char) == '\n')) = false := by decide
    have hn : (!(('\n' : Char) == '\r' || ('\n' : Char) == '\n')) = false := by decide
    by_cases hw : (i + 1) % 76 = 0
    · simp only [wrapAux, if_pos hw, List.filter_cons, hkeep, hr, hn]
      rw [ih]
      simp
    · simp only [wrapAux, if_neg hw, List.filter_cons, hkeep]
      rw [ih]
      simp

/-- The hard-wrapping behaviour of the character loop, written the way
the spec describes it: lines of exactly 76 characters, each complete
line terminated by CRLF, a final shorter line left unterminated. -/
def wrapSpec (s : List Char) : List Char :=
  if h : s.length < 76 then s
  else s.take 76 ++ '\r' :: '\n' :: wrapSpec (s.drop 76)
termination_by s.length
decreasing_by
  simp only [List.length_drop]
  omega

/-- The wrap counter only matters modulo 76. -/
lemma wrapAux_congr_mod : ∀ (s : List Char) (i j : Nat), i % 76 = j % 76 →
    wrapAux s i = wrapAux s j
  | [], _, _ => by intro _; rfl
  | c :: rest, i, j => by
    intro h
    have hmod : (i + 1) % 76 = (j + 1) % 76 := by omega
    have ih := wrapAux_congr_mod rest (i + 1) (j + 1) hmod
    simp only [wrapAux, hmod, ih]

/-- Unfolding lemma for the wrap loop: starting `k + 1` characters
before the next wrap point, the loop copies `k + 1` characters, emits
CRLF if the input is long enough, and restarts. -/
lemma wrapAux_take : ∀ (k : Nat), k + 1 ≤ 76 → ∀ (s : List Char),
    wrapAux s (76 - (k + 1)) =
      if s.length < k + 1 then s
      else s.take (k + 1) ++ '\r' :: '\n' :: wrapAux (s.drop (k + 1)) 0
  | 0, _ => by
    intro s
    match s with
    | [] => simp [wrapAux]
    | c :: rest =>
      have h76 : (76 - 1 + 1) % 76 = 0 := by norm_num
      simp only [wrapAux, h76, if_pos rfl, List.length_cons]
      rw [wrapAux_congr_mod rest 76 0 (by norm_num)]
      simp
  | k + 1, hk => by
    intro s
    have ih := wrapAux_take k (by omega)
    match s with
    | [] => simp [wrapAux]
    | c :: rest =>
      have hstep : 76 - (k + 1 + 1) + 1 = 76 - (k + 1) := by omega
      have hne : (76 - (k + 1)) % 76 ≠ 0 := by omega
      have hunf : wrapAux (c :: rest) (76 - (k + 1 + 1)) = c :: wrapAux rest (76 - (k + 1)) := by
        simp only [wrapAux, hstep, if_neg hne]
      rw [hunf, ih rest]
      by_cases hlen : rest.length < k + 1
      · rw [if_pos hlen, if_pos (show (c :: rest).length < k + 1 + 1 by
          simp only [List.length_cons]; omega)]
      · rw [if_neg hlen, if_neg (show ¬(c :: rest).length < k + 1 + 1 by
          simp only [List.length_cons]; omega)]
        simp [List.take_succ_cons, List.drop_succ_cons]

/-- The per-character wrap loop of `ToBytes` equals the line-structured
wrapping description. -/
theorem wrap76_eq_wrapSpec (s : List Char) : wrap76 s = wrapSpec s := by
  have main : ∀ (n : Nat) (t : List Char), t.length ≤ n → wrapAux t 0 = wrapSpec t := by
    intro n
    induction n with
    | zero =>
      intro t ht
      have : t = [] := List.eq_nil_of_length_eq_zero (by omega)
      subst this
      rw [wrapSpec]
      simp [wrapAux]
    | succ n ih =>
      intro t ht
      have h75 : (75 : Nat) + 1 ≤ 76 := by norm_num
      have hu := wrapAux_take 75 h75 t
      norm_num at hu
      rw [wrapSpec]
      by_cases hlen : t.length < 76
      · rw [if_pos hlen] at hu
        rw [dif_pos hlen]
        exact hu
      · rw [if_neg hlen] at hu
        rw [dif_neg hlen]
        rw [hu]
        congr 1
        congr 2
        exact ih (t.drop 76) (by simp [List.length_drop]; omega)
  exact main s.length s (le_refl _)

/-- Number of positions of `l` at which the pattern `pat` occurs as a
contiguous substring (occurrences may overlap). -/
def countOccs (pat : List Char) : List Char → Nat
  | [] => 0
  | c :: l => (if pat <+: c :: l then 1 else 0) + countOccs pat l

/-- A prefix that fits inside the left part of an append is a prefix of
that part alone. -/
lemma prefix_append_iff_of_le {p x y : List Char} (h : p.length ≤ x.length) :
    p <+: x ++ y ↔ p <+: x := by
  constructor
  · intro hp
    have h1 : p = (x ++ y).take p.length := List.prefix_iff_eq_take.mp hp
    rw [List.take_append_of_le_length h] at h1
    rw [h1]
    exact List.take_prefix _ _
  · rintro ⟨t, ht⟩
    exact ⟨t ++ y, by rw [← ht]; simp⟩

/-- If a pattern occurrence starting inside `x` spills over into
`d :: y`, the pattern contains `d`. -/
lemma mem_of_spanning {p x y : List Char} {d : Char}
    (h : p <+: x ++ d :: y) (hlen : x.length < p.length) : d ∈ p := by
  rcases h with ⟨t, ht⟩
  have hd : (p ++ t).drop x.length = p.drop x.length ++ t :=
    List.drop_append_of_le_length (by omega)
  have hx : (x ++ d :: y).drop x.length = d :: y := List.drop_left _ _
  rw [ht, hx] at hd
  have hne : p.drop x.length ≠ [] := by
    intro hcon
    have hlen2 := congrArg List.length hcon
    simp only [List.length_drop, List.length_nil] at hlen2
    omega
  obtain ⟨a, q, hq⟩ := List.exists_cons_of_ne_nil hne
  rw [hq] at hd
  simp only [List.cons_append] at hd
  injection hd with h1 _
  subst h1
  have hmem : d ∈ p.drop x.length := by
    rw [hq]
    simp
  exact List.mem_of_mem_drop hmem

/-- Occurrence counting splits across an append whose right part starts
with a character not in the pattern: no occurrence can span the border. -/
lemma countOccs_append_mid (p : List Char) (hp : p ≠ []) {d : Char} (hd : d ∉ p) :
    ∀ (x y : List Char), countOccs p (x ++ d :: y) = countOccs p x + countOccs p (d :: y)
  | [], y => by simp [countOccs]
  | a :: x, y => by
    have ih := countOccs_append_mid p hp hd x y
    simp only [List.cons_append, countOccs, List.append_eq, ih]
    have hind : (if p <+: a :: (x ++ d :: y) then 1 else 0) = (if p <+: a :: x then 1 else 0) := by
      by_cases hfit : p.length ≤ (a :: x).length
      · have hiff := prefix_append_iff_of_le (p := p) (x := a :: x) (y := d :: y) hfit
        simp only [List.cons_append] at hiff
        exact if_congr hiff rfl rfl
      · have h1 : ¬ p <+: a :: (x ++ d :: y) := by
          intro hcon
          have hcon2 : p <+: (a :: x) ++ d :: y := by
            simpa using hcon
          exact hd (mem_of_spanning hcon2 (by simp only [List.length_cons] at *; omega))
        have h2 : ¬ p <+: a :: x := by
          intro hcon
          have := hcon.length_le
          simp only [List.length_cons] at *
          omega
        rw [if_neg h1, if_neg h2]
    omega

/-- A pattern cannot occur at the head of a list beginning with a
character it does not contain. -/
lemma countOccs_cons_of_not_mem (p : List Char) (hp : p ≠ []) {d : Char} (hd : d ∉ p)
    (y : List Char) : countOccs p (d :: y) = countOccs p y := by
  simp only [countOccs]
  have h1 : ¬ p <+: d :: y := by
    intro hcon
    match p, hcon with
    | a :: p', ⟨t, ht⟩ =>
      injection ht with h1 _
      exact hd (by rw [h1]; simp)
    | [], _ => exact hp rfl
  rw [if_neg h1]
  omega

/-- Full splitting: the count over `x ++ d :: y` with `d` outside the
pattern is the sum of the counts of the two sides. -/
lemma countOccs_split (p : List Char) (hp : p ≠ []) {d : Char} (hd : d ∉ p)
    (x y : List Char) : countOccs p (x ++ d :: y) = countOccs p x + countOccs p y := by
  rw [countOccs_append_mid p hp hd x y, countOccs_cons_of_not_mem p hp hd y]

/-- The count in a list that lacks some character of the pattern is zero. -/
lemma countOccs_eq_zero_of_not_mem (p : List Char) {c : Char} (hc : c ∈ p) :
    ∀ (x : List Char), (c ∉ x) → countOccs p x = 0
  | [] => by intro _; rfl
  | a :: x => by
    intro hx
    have ih := countOccs_eq_zero_of_not_mem p hc x (fun h => hx (by simp [h]))
    simp only [countOccs, ih]
    have h1 : ¬ p <+: a :: x := by
      intro hcon
      exact hx (hcon.subset hc)
    rw [if_neg h1]

/-- Counting is antitone in the pattern: occurrences of a longer pattern
are occurrences of each of its prefixes. -/
lemma countOccs_le_of_patPrefixed {p q : List Char} (hpq : p <+: q) :
    ∀ (x : List Char), countOccs q x ≤ countOccs p x
  | [] => le_refl _
  | a :: x => by
    have ih := countOccs_le_of_patPrefixed hpq x
    simp only [countOccs]
    by_cases h : q <+: a :: x
    · rw [if_pos h, if_pos (hpq.trans h)]
      omega
    · rw [if_neg h]
      omega

/-- Counting distributes over the concatenation of segments that each
end with a newline, for a pattern that contains no newline. -/
lemma countOccs_flatten (p : List Char) (hp : p ≠ []) (hn : '\n' ∉ p) :
    ∀ (segs : List (List Char)), (∀ s ∈ segs, s.getLast? = some '\n') →
      countOccs p segs.flatten = (segs.map (countOccs p)).sum
  | [] => by intro _; rfl
  | s :: segs => by
    intro h
    have hs := h s (by simp)
    have ih := countOccs_flatten p hp hn segs (fun t ht => h t (by simp [ht]))
    have hne : s ≠ [] := by
      intro hcon
      rw [hcon] at hs
      simp at hs
    have hdecomp : s = s.dropLast ++ ['\n'] := by
      have h1 := List.dropLast_append_getLast hne
      have h2 : s.getLast hne = '\n' := by
        have h3 := List.getLast?_eq_getLast s hne
        rw [hs] at h3
        injection h3 with h4
        exact h4.symm
      rw [h2] at h1
      exact h1.symm
    have hjoin : (s :: segs).flatten = s.dropLast ++ '\n' :: segs.flatten := by
      rw [List.flatten_cons]
      conv_lhs => rw [hdecomp]
      simp
    rw [hjoin]
    rw [countOccs_split p hp hn s.dropLast segs.flatten]
    simp only [List.map_cons, List.sum_cons]
    rw [ih]
    have hseg : countOccs p s = countOccs p s.dropLast := by
      conv_lhs => rw [hdecomp]
      have hx := countOccs_split p hp hn s.dropLast ([] : List Char)
      simpa [countOccs] using hx
    omega

/-- UTF-8 encoding of one character (RFC 3629), as byte values. -/
def utf8Bytes (c : Char) : List Nat :=
  let n := c.toNat
  if n < 128 then [n]
  else if n < 2048 then [192 + n / 64, 128 + n % 64]
  else if n < 65536 then [224 + n / 4096, 128 + n / 64 % 64, 128 + n % 64]
  else [240 + n / 262144, 128 + n / 4096 % 64, 128 + n / 64 % 64, 128 + n % 64]

/-- Bytes of a Lean string, modelling Go's `[]byte(s)` conversion
(strings are UTF-8 byte sequences on both sides). -/
def strBytes (s : String) : List Nat := (s.data.map utf8Bytes).flatten

/-- Model of Go's `net/mail.Address`: a display name and an address. -/
structure Address where
  name : String
  address : String
deriving DecidableEq, Repr

/-- Rendering of an address, modelling `mail.Address.String()` from the
Go standard library (simplified: RFC 2047/5322 quoting of unusual
display names is not reproduced; an empty name yields `<addr>`, a
non-empty name yields `name <addr>`). -/
def Address.render (a : Address) : List Char :=
  if a.name = "" then '<' :: a.address.data ++ ['>']
  else a.name.data ++ ' ' :: '<' :: a.address.data ++ ['>']

/-- `getRecipientsStr`: each recipient rendered, joined with commas
(`strings.Join(recipientsStr, ",")`). -/
def getRecipientsStr (recipients : List Address) : List Char :=
  List.intercalate [','] (recipients.map Address.render)

/-- The `Message` structure of rmailer.  `Attachments` is Go's
`map[string][]byte`; it is modelled as an association list whose order
stands for the (randomized) iteration order of the map, with at most
one binding per key. -/
structure Message where
  From : Address
  To : List Address
  CC : List Address
  BCC : List Address
  Subject : String
  BodyText : String
  BodyHtml : String
  Attachments : List (String × List Nat)
deriving DecidableEq, Repr

/-- `MessageBuilder.FromLine`: `fmt.Sprintf("From: %s\r\n", ...)`. -/
def fromLine (m : Message) : List Char :=
  "From: ".data ++ m.From.render ++ ['\r', '\n']

/-- `MessageBuilder.ToLine`: `fmt.Sprintf("To: %s\r\n", ...)`. -/
def toLine (m : Message) : List Char :=
  "To: ".data ++ getRecipientsStr m.To ++ ['\r', '\n']

/-- `MessageBuilder.CcLine`: `fmt.Sprintf("Cc: %s\r\n", ...)`. -/
def ccLine (m : Message) : List Char :=
  "Cc: ".data ++ getRecipientsStr m.CC ++ ['\r', '\n']

/-- `MessageBuilder.SubjectLine`: the subject bytes are base64-encoded
and wrapped in an encoded word, unconditionally. -/
def subjectLine (m : Message) : List Char :=
  "Subject: =?UTF-8?B?".data ++ b64encode (strBytes m.Subject) ++ "?=\r\n".data

/-- The constant `MimeVersionLine = "MIME-Version: 1.0\n"` (note: `\n`
only, not `\r\n`). -/
def MimeVersionLine : List Char := "MIME-Version: 1.0\n".data

/-- `MessageBuilder.BodyLine`: body-part header plus content,
`"Content-Type: %s; charset=utf-8\r\n\r\n%s\r\n"`. -/
def bodyLine (content : List Char) (contentType : List Char) : List Char :=
  "Content-Type: ".data ++ contentType ++ "; charset=utf-8\r\n\r\n".data ++
    content ++ ['\r', '\n']

/-- `MessageBuilder.BodyHtmlLine`. -/
def bodyHtmlLine (m : Message) : List Char := bodyLine m.BodyHtml.data "text/html".data

/-- `MessageBuilder.BodyTextLine`. -/
def bodyTextLine (m : Message) : List Char := bodyLine m.BodyText.data "text/plain".data

/-- The constant `ContentTypeLine = "Content-Type: %s\n"` instantiated. -/
def contentTypeLine (ct : List Char) : List Char :=
  "Content-Type: ".data ++ ct ++ ['\n']

/-- The constant
`ContentTypeLineBoundary = "Content-Type: %s; boundary=%s\n\n--%s\n"`
instantiated (both `%s` boundary slots receive the same token in
`ToBytes`). -/
def contentTypeLineBoundary (ct bnd : List Char) : List Char :=
  "Content-Type: ".data ++ ct ++ "; boundary=".data ++ bnd ++ "\n\n--".data ++ bnd ++ ['\n']

/-- The constant `ContentTransfertEncodingBase64Line`. -/
def contentTransfertEncodingBase64Line : List Char :=
  "Content-Transfer-Encoding: base64\n".data

/-- The constant `BoundaryLine = "\n\n--%s\n"` instantiated. -/
def boundaryLine (bnd : List Char) : List Char :=
  "\n\n--".data ++ bnd ++ ['\n']

/-- The constant `ContentDispositionAttachmentLine` instantiated with the
base64-encoded file name. -/
def contentDispositionAttachmentLine (encName : List Char) : List Char :=
  "Content-Disposition: attachment; filename=\"=?UTF-8?B?".data ++ encName ++
    "?=\"\r\n\r\n".data

/-- `multipart.Writer.Boundary()` returns the writer's stored boundary
token; the token itself (chosen randomly at `NewWriter`) is the
parameter `w` of the embedding. -/
def writerBoundary (w : List Char) : List Char := w

/-- `boundaryMixed := writer.Boundary()` (line 264 of rmailer.go). -/
def boundaryMixed (w : List Char) : List Char := writerBoundary w

/-- `boundaryAlternative := writer.Boundary()` (line 265 of rmailer.go),
a second call on the same writer. -/
def boundaryAlternative (w : List Char) : List Char := writerBoundary w

/-- Modelled from the Go standard library: `http.DetectContentType`
sniffs the leading bytes of the content.  The sniffing table is not part
of this repository; the model keeps only its relevant shape, returning
the sniffer's textual fallback.  No claim depends on the value. -/
def detectContentType (_content : List Nat) : List Char :=
  "text/plain; charset=utf-8".data

/-- Modelled from the Go standard library: `filepath.Ext` returns the
suffix of the name starting at its final dot, or the empty string. -/
def extname (name : String) : String :=
  match name.data.foldl
      (fun (acc : Option (List Char)) c =>
        if c = '.' then some [] else acc.map (fun t => t ++ [c])) none with
  | some t => String.mk ('.' :: t)
  | none => ""

/-- Modelled from the Go standard library: `mime.TypeByExtension`, kept
to a tiny table (unknown extensions give the empty string).  No claim
depends on the value. -/
def typeByExtension (ext : String) : List Char :=
  if ext = ".txt" then "text/plain; charset=utf-8".data
  else if ext = ".html" then "text/html; charset=utf-8".data
  else []

/-- `getContentType`: sniff the content; if the sniffed type has prefix
`text/plain`, consult the file-name extension instead. -/
def getContentType (name : String) (content : List Nat) : List Char :=
  let contentType := detectContentType content
  if "text/plain".data.isPrefixOf contentType then typeByExtension (extname name)
  else contentType

/-- The base64 attachment body as emitted by `ToBytes`: the encoded
content written through the 76-character wrapping loop. -/
def attachmentBody (v : List Nat) : List Char := wrap76 (b64encode v)

/-- One iteration of the attachment loop of `ToBytes`: boundary line,
content-type line, transfer-encoding line, disposition line, wrapped
base64 body, trailing boundary line. -/
def attachmentPart (bnd : List Char) (k : String) (v : List Nat) : List Char :=
  boundaryLine bnd ++ contentTypeLine (getContentType k v) ++
    contentTransfertEncodingBase64Line ++
    contentDispositionAttachmentLine (b64encode (strBytes k)) ++
    attachmentBody v ++ boundaryLine bnd

/-- The whole attachment loop, iterating in the order of the
association list (the map's iteration order). -/
def attachmentsBlock (atts : List (String × List Nat)) (bnd : List Char) : List Char :=
  (atts.map (fun kv => attachmentPart bnd kv.1 kv.2)).flatten

/-- The header block of `ToBytes`: From, To, optional Cc, Subject,
MIME-Version. -/
def headerBlock (m : Message) : List Char :=
  fromLine m ++ toLine m ++ (if 0 < m.CC.length then ccLine m else []) ++
    subjectLine m ++ MimeVersionLine

/-- `Message.ToBytes`, with the writer's random boundary token `w`
passed explicitly and the map iteration order taken from the
association list.  Mirrors rmailer.go lines 244-313 statement by
statement. -/
def toBytes (m : Message) (w : List Char) : List Char :=
  headerBlock m ++
    (if 0 < m.Attachments.length then
      contentTypeLineBoundary "multipart/mixed".data (boundaryMixed w)
    else []) ++
    (if 0 < m.BodyHtml.length ∧ 0 < m.BodyText.length then
      contentTypeLineBoundary "multipart/alternative".data (boundaryAlternative w)
    else []) ++
    (if 0 < m.BodyHtml.length then
      bodyHtmlLine m ++
        (if 0 < m.BodyText.length then boundaryLine (boundaryAlternative w) else [])
    else []) ++
    (if 0 < m.BodyText.length then bodyTextLine m else []) ++
    (if 0 < m.Attachments.length then
      attachmentsBlock m.Attachments (boundaryMixed w) ++ ['-', '-']
    else [])

/-- SMTP commands issued by a send session (modulo the raw message
bytes, which no claim inspects). -/
inductive Cmd where
  | mail
  | rcpt (a : String)
  | data
  | quit
deriving DecidableEq, Repr

/-- Behaviour of the peer SMTP server, as the embedding's model of the
network: whether the dial succeeds, whether it accepts MAIL FROM, which
RCPT TO addresses it accepts, and whether DATA / the body write / the
data-stream close succeed. -/
structure Server where
  dialOk : Bool
  mailOk : Bool
  rcptOk : String → Bool
  dataOk : Bool
  writeOk : Bool
  closeOk : Bool

/-- The `recipients` helper (rmailer.go lines 158-176): one RCPT TO per
address of To, CC and BCC in that order; a rejected RCPT is only logged
and never stops the loop.  The trace records each command with the
server's verdict. -/
def rcptTrace (srv : Server) (m : Message) : List (Cmd × Bool) :=
  (m.To ++ m.CC ++ m.BCC).map (fun a => (Cmd.rcpt a.address, srv.rcptOk a.address))

/-- The envelope recipient addresses, in the order `recipients` issues
them. -/
def rcptTargets (m : Message) : List String :=
  m.To.map (fun a => a.address) ++ m.CC.map (fun a => a.address) ++
    m.BCC.map (fun a => a.address)

/-- `Sender.AnonymousSend` (rmailer.go lines 61-97) reduced to its
command sequencing: dial, MAIL FROM (abort on failure), all RCPT TOs
(failures logged only), DATA (abort on failure), body write and close
(abort on failure), QUIT.  Returns the issued-command trace and whether
the send succeeded. -/
def anonymousSend (srv : Server) (m : Message) : List (Cmd × Bool) × Bool :=
  if srv.dialOk = false then ([], false)
  else if srv.mailOk = false then ([(Cmd.mail, false)], false)
  else
    let t := (Cmd.mail, true) :: rcptTrace srv m
    if srv.dataOk = false then (t ++ [(Cmd.data, false)], false)
    else if srv.writeOk = false then (t ++ [(Cmd.data, true)], false)
    else if srv.closeOk = false then (t ++ [(Cmd.data, true)], false)
    else (t ++ [(Cmd.data, true), (Cmd.quit, true)], true)

/-- Modelled from the Go standard library: `filepath.Split` separates
the directory from the final path element; `AttachFile` keeps only the
latter, i.e. everything after the last `/`. -/
def baseName (path : String) : String :=
  String.mk (path.data.foldl (fun acc c => if c = '/' then [] else acc ++ [c]) [])

/-- Go map assignment `m.Attachments[fileName] = b`: replace the binding
of an existing key, otherwise add a new binding. -/
def mapInsert (l : List (String × List Nat)) (k : String) (v : List Nat) :
    List (String × List Nat) :=
  match l with
  | [] => [(k, v)]
  | (k', v') :: t => if k' = k then (k, v) :: t else (k', v') :: mapInsert t k v

/-- `Message.AttachFile` (rmailer.go lines 226-242): `read` is the
outcome of `os.Open` plus `io.ReadAll` on `path` (`none` models an I/O
error from either).  On error the error is returned and the message is
untouched; on success the full content is stored under the base file
name.  Result: the (possibly updated) message and the returned error
(`none` = nil). -/
def attachFile (read : Option (List Nat)) (m : Message) (path : String) :
    Message × Option Unit :=
  match read with
  | none => (m, some ())
  | some b => ({ m with Attachments := mapInsert m.Attachments (baseName path) b }, none)

example : baseName "dir/sub/a.txt" = "a.txt" := by decide
example : extname "a.txt" = ".txt" := by decide
example : extname "foo" = "" := by decide

lemma b64encode_no_crlf (v : List Nat) : ∀ c ∈ b64encode v, c ≠ '\r' ∧ c ≠ '\n' := by
  intro c hc
  have hm := b64encode_subset v c hc
  have hr : '\r' ∉ b64charset := by decide
  have hn : '\n' ∉ b64charset := by decide
  constructor
  · intro hcon
    subst hcon
    exact hr hm
  · intro hcon
    subst hcon
    exact hn hm

/-- Claim C1: for every attachment byte content `v`, the base64 body
emitted by `ToBytes` for that attachment part, after removing every
CRLF inserted by the line wrapping, base64-decodes back to exactly `v`. -/
theorem C1_attachment_roundtrip (v : List Nat) (hv : ∀ b ∈ v, b < 256) :
    b64decode (stripCRLF (attachmentBody v)) = some v := by
  show b64decode (stripCRLF (wrapAux (b64encode v) 0)) = some v
  rw [stripCRLF_wrapAux (b64encode v) 0 (b64encode_no_crlf v)]
  exact b64decode_b64encode v hv

/-- Witness for C1 at a concrete 1000-byte attachment content. -/
theorem C1_attachment_roundtrip_witness :
    (∀ b ∈ List.replicate 1000 65, b < 256) ∧
      b64decode (stripCRLF (attachmentBody (List.replicate 1000 65))) =
        some (List.replicate 1000 65) :=
  ⟨fun b hb => by rw [List.eq_of_mem_replicate hb]; omega,
   C1_attachment_roundtrip (List.replicate 1000 65)
     (fun b hb => by rw [List.eq_of_mem_replicate hb]; omega)⟩

set_option maxRecDepth 8000 in
/-- Claim C4 (amended): the base64 body is wrapped by inserting CRLF
after every complete run of 76 characters; a final line of fewer than 76
characters is not CRLF-terminated.  For a 200-byte attachment the
encoded body has `ceil(200/3)*4 = 268` characters, split into lines of
76, 76, 76 and 40 characters, the first three CRLF-terminated. -/
theorem C4_wrap76_structure :
    (∀ s : List Char, wrap76 s = wrapSpec s) ∧
    (b64encode (List.replicate 200 0)).length = 268 ∧
    attachmentBody (List.replicate 200 0) =
      (b64encode (List.replicate 200 0)).take 76 ++ '\r' :: '\n' ::
        (((b64encode (List.replicate 200 0)).drop 76).take 76 ++ '\r' :: '\n' ::
          (((b64encode (List.replicate 200 0)).drop 152).take 76 ++ '\r' :: '\n' ::
            (b64encode (List.replicate 200 0)).drop 228)) ∧
    ((b64encode (List.replicate 200 0)).drop 228).length = 40 :=
  ⟨wrap76_eq_wrapSpec, by decide, by decide, by decide⟩

set_option maxRecDepth 8000 in
/-- Counterexample to claim C4 as stated: for a 200-byte attachment the
emitted wrapped body has 268 + 3*2 = 274 characters, and its final
(40-character) line is not terminated by CRLF — the body does not end
with CRLF. -/
theorem C4_counterexample :
    (attachmentBody (List.replicate 200 0)).length = 274 ∧
      (attachmentBody (List.replicate 200 0)).drop 272 ≠ ['\r', '\n'] :=
  ⟨by decide, by decide⟩

lemma string_length_pos {s : String} (h : s ≠ "") : 0 < s.length := by
  cases s with
  | mk data =>
    cases data with
    | nil => exact absurd rfl h
    | cons c cs => simp [String.length]

/-- Counterexample to claim C5 as stated: two messages equal as maps
(same attachment bindings, permuted iteration order) with the same
generated boundary token produce different byte sequences; moreover the
mixed and alternative boundary tokens of a call are identical, not
distinct. -/
theorem C5_counterexample :
    (Message.mk ⟨"", "f@x"⟩ [⟨"", "t@x"⟩] [] [] "s" "hello" ""
        [("a", [0]), ("b", [1])]).Attachments.Perm
      (Message.mk ⟨"", "f@x"⟩ [⟨"", "t@x"⟩] [] [] "s" "hello" ""
        [("b", [1]), ("a", [0])]).Attachments ∧
    toBytes (Message.mk ⟨"", "f@x"⟩ [⟨"", "t@x"⟩] [] [] "s" "hello" ""
        [("a", [0]), ("b", [1])]) ['b'] ≠
      toBytes (Message.mk ⟨"", "f@x"⟩ [⟨"", "t@x"⟩] [] [] "s" "hello" ""
        [("b", [1]), ("a", [0])]) ['b'] ∧
    boundaryMixed ['b'] = boundaryAlternative ['b'] :=
  ⟨List.Perm.swap _ _ _, by set_option maxRecDepth 8000 in decide, rfl⟩

/-- Claim C5 (amended): `ToBytes` is deterministic given the single
random boundary token of the call and the attachment-map iteration
order: two invocations on messages that agree on every serialized field
and on the attachment iteration order, with equal boundary tokens,
return identical bytes.  The mixed and the alternative boundary tokens
of one call are obtained from the same writer and are equal, not
distinct. -/
theorem C5_determinism (m1 m2 : Message) (w : List Char)
    (hF : m1.From = m2.From) (hT : m1.To = m2.To) (hC : m1.CC = m2.CC)
    (hS : m1.Subject = m2.Subject) (hBT : m1.BodyText = m2.BodyText)
    (hBH : m1.BodyHtml = m2.BodyHtml) (hA : m1.Attachments = m2.Attachments) :
    toBytes m1 w = toBytes m2 w ∧ boundaryMixed w = boundaryAlternative w := by
  cases m1
  cases m2
  simp only at hF hT hC hS hBT hBH hA
  subst hF
  subst hT
  subst hC
  subst hS
  subst hBT
  subst hBH
  subst hA
  exact ⟨rfl, rfl⟩

/-- Witness for C5 (amended): two concrete messages differing only in
BCC serialize identically under an equal boundary token. -/
theorem C5_determinism_witness :
    toBytes ⟨⟨"", "f@x"⟩, [⟨"", "t@x"⟩], [], [], "s", "hello", "", []⟩ ['b'] =
      toBytes ⟨⟨"", "f@x"⟩, [⟨"", "t@x"⟩], [], [⟨"", "hidden@x"⟩], "s", "hello", "", []⟩ ['b'] ∧
    boundaryMixed ['b'] = boundaryAlternative ['b'] :=
  C5_determinism _ _ _ rfl rfl rfl rfl rfl rfl rfl

/-- Claim C9: both boundary tokens of a call to `ToBytes` come from the
same `multipart.Writer` and are the same string; for a message with
attachments and both bodies, the nested multipart/alternative envelope
is opened with the identical token as the enclosing multipart/mixed
envelope. -/
theorem C9_single_boundary_token (m : Message) (w : List Char)
    (ha : m.Attachments ≠ []) (hh : m.BodyHtml ≠ "") (ht : m.BodyText ≠ "") :
    boundaryMixed w = boundaryAlternative w ∧
    toBytes m w =
      headerBlock m ++
        contentTypeLineBoundary "multipart/mixed".data w ++
        contentTypeLineBoundary "multipart/alternative".data w ++
        bodyHtmlLine m ++ boundaryLine w ++ bodyTextLine m ++
        attachmentsBlock m.Attachments w ++ ['-', '-'] := by
  have h1 : 0 < m.Attachments.length := List.length_pos.mpr ha
  have h2 : 0 < m.BodyHtml.length := string_length_pos hh
  have h3 : 0 < m.BodyText.length := string_length_pos ht
  refine ⟨rfl, ?_⟩
  simp only [toBytes, if_pos h1, if_pos (And.intro h2 h3), if_pos h2, if_pos h3,
    boundaryMixed, boundaryAlternative, writerBoundary]
  simp [List.append_assoc]

def c9msg : Message :=
  ⟨⟨"", "f@x"⟩, [⟨"", "t@x"⟩], [], [], "s", "plain", "<p>h</p>", [("a.txt", [65])]⟩

/-- Witness for C9 at a concrete message with an attachment and both
bodies. -/
theorem C9_single_boundary_token_witness :
    (c9msg.Attachments ≠ [] ∧ c9msg.BodyHtml ≠ "" ∧ c9msg.BodyText ≠ "") ∧
    (boundaryMixed ['b'] = boundaryAlternative ['b'] ∧
      toBytes c9msg ['b'] =
        headerBlock c9msg ++
          contentTypeLineBoundary "multipart/mixed".data ['b'] ++
          contentTypeLineBoundary "multipart/alternative".data ['b'] ++
          bodyHtmlLine c9msg ++ boundaryLine ['b'] ++ bodyTextLine c9msg ++
          attachmentsBlock c9msg.Attachments ['b'] ++ ['-', '-']) :=
  ⟨⟨by decide, by decide, by decide⟩,
   C9_single_boundary_token c9msg ['b'] (by decide) (by decide) (by decide)⟩

/-- Claim C10: the bytes returned by `ToBytes` are independent of the
BCC field — no BCC address is ever serialized — and BCC addresses flow
only into the RCPT TO targets of the transport. -/
theorem C10_bcc_independent (m : Message) (b1 b2 : List Address) (w : List Char) :
    toBytes { m with BCC := b1 } w = toBytes { m with BCC := b2 } w ∧
    rcptTargets { m with BCC := b1 } =
      m.To.map (fun a => a.address) ++ m.CC.map (fun a => a.address) ++
        b1.map (fun a => a.address) := by
  cases m
  exact ⟨rfl, rfl⟩

/-- Claim C8: in a send session, failing RCPT TOs are non-fatal — with
the dial and MAIL FROM accepted, DATA is issued whatever the per-address
RCPT verdicts are, and QUIT follows when the remaining steps succeed —
while a rejected MAIL FROM aborts the session before DATA is ever
issued. -/
theorem C8_rcpt_nonfatal (srv : Server) (m : Message) (hd : srv.dialOk = true) :
    (srv.mailOk = true → Cmd.data ∈ (anonymousSend srv m).1.map Prod.fst) ∧
    (srv.mailOk = true → srv.dataOk = true → srv.writeOk = true → srv.closeOk = true →
      Cmd.quit ∈ (anonymousSend srv m).1.map Prod.fst) ∧
    (srv.mailOk = false → Cmd.data ∉ (anonymousSend srv m).1.map Prod.fst) := by
  refine ⟨?_, ?_, ?_⟩
  · intro hm
    by_cases h1 : srv.dataOk = false
    · simp [anonymousSend, hd, hm, h1]
    · by_cases h2 : srv.writeOk = false
      · simp [anonymousSend, hd, hm, h1, h2]
      · by_cases h3 : srv.closeOk = false
        · simp [anonymousSend, hd, hm, h1, h2, h3]
        · simp [anonymousSend, hd, hm, h1, h2, h3]
  · intro hm h1 h2 h3
    simp [anonymousSend, hd, hm, h1, h2, h3]
  · intro hm
    simp [anonymousSend, hd, hm]

def c8srv : Server := ⟨true, true, fun _ => false, true, true, true⟩

def c8msg : Message :=
  ⟨⟨"", "f@x"⟩, [⟨"", "a@x"⟩, ⟨"", "b@x"⟩], [], [⟨"", "c@x"⟩], "", "", "", []⟩

/-- Witness for C8: a server that rejects every RCPT TO still sees DATA
and QUIT issued for a three-recipient message. -/
theorem C8_rcpt_nonfatal_witness :
    c8srv.dialOk = true ∧ c8srv.rcptOk "a@x" = false ∧
    Cmd.data ∈ (anonymousSend c8srv c8msg).1.map Prod.fst ∧
    Cmd.quit ∈ (anonymousSend c8srv c8msg).1.map Prod.fst :=
  ⟨rfl, rfl, (C8_rcpt_nonfatal c8srv c8msg rfl).1 rfl,
   (C8_rcpt_nonfatal c8srv c8msg rfl).2.1 rfl rfl rfl rfl⟩

lemma lookup_mapInsert_self : ∀ (l : List (String × List Nat)) (k : String) (v : List Nat),
    (mapInsert l k v).lookup k = some v
  | [], k, v => by simp [mapInsert, List.lookup]
  | (k', v') :: t, k, v => by
    by_cases h : k' = k
    · subst h
      simp [mapInsert, List.lookup]
    · have ih := lookup_mapInsert_self t k v
      have hbeq : (k == k') = false := by
        simp [Ne.symm h]
      simp [mapInsert, if_neg h, List.lookup, hbeq, ih]

lemma lookup_mapInsert_ne : ∀ (l : List (String × List Nat)) (k : String) (v : List Nat)
    (k2 : String), k2 ≠ k → (mapInsert l k v).lookup k2 = l.lookup k2
  | [], k, v, k2 => by
    intro h
    have hbeq : (k2 == k) = false := by simp [h]
    simp [mapInsert, List.lookup, hbeq]
  | (k', v') :: t, k, v, k2 => by
    intro h
    have ih := lookup_mapInsert_ne t k v k2 h
    by_cases hk : k' = k
    · subst hk
      have hbeq : (k2 == k') = false := by simp [h]
      simp [mapInsert, List.lookup, hbeq]
    · by_cases hk2 : k2 = k'
      · subst hk2
        simp [mapInsert, if_neg hk, List.lookup]
      · have hbeq : (k2 == k') = false := by simp [hk2]
        simp [mapInsert, if_neg hk, List.lookup, hbeq, ih]

lemma foldl_base_no_slash : ∀ (n : List Char) (acc : List Char), (∀ c ∈ n, c ≠ '/') →
    n.foldl (fun acc c => if c = '/' then [] else acc ++ [c]) acc = acc ++ n
  | [], acc => by
    intro _
    simp
  | c :: n, acc => by
    intro h
    have hc : c ≠ '/' := h c (by simp)
    have ih := foldl_base_no_slash n (acc ++ [c]) (fun d hd => h d (by simp [hd]))
    simp only [List.foldl_cons, if_neg hc, ih, List.append_assoc, List.singleton_append]

/-- Claim C7: `AttachFile` returns an I/O error and leaves the
attachment map unchanged when the file cannot be opened or fully read;
on success the full content is stored under the base file name (the
directory part of the path is discarded), silently overwriting any
earlier attachment of the same name and leaving all other names
untouched. -/
theorem C7_attachFile (m : Message) (path : String) (read : Option (List Nat)) :
    (read = none → attachFile read m path = (m, some ())) ∧
    (∀ b, read = some b →
      (attachFile read m path).1.Attachments.lookup (baseName path) = some b ∧
      (∀ k, k ≠ baseName path →
        (attachFile read m path).1.Attachments.lookup k = m.Attachments.lookup k) ∧
      (attachFile read m path).2 = none) ∧
    (∀ d n : String, ('/' ∉ n.data) → baseName (d ++ "/" ++ n) = n) := by
  refine ⟨?_, ?_, ?_⟩
  · intro h
    subst h
    rfl
  · intro b h
    subst h
    refine ⟨?_, ?_, rfl⟩
    · exact lookup_mapInsert_self m.Attachments (baseName path) b
    · intro k hk
      exact lookup_mapInsert_ne m.Attachments (baseName path) b k hk
  · intro d n hn
    show String.mk ((d ++ "/" ++ n).data.foldl _ []) = n
    have hdata : (d ++ "/" ++ n).data = (d.data ++ ['/']) ++ n.data := by
      simp [String.data_append]
    rw [hdata, List.foldl_append]
    have hslash : ((d.data ++ ['/']).foldl
        (fun acc c => if c = '/' then [] else acc ++ [c]) []) = [] := by
      rw [List.foldl_append]
      simp
    rw [hslash, foldl_base_no_slash n.data [] (fun c hc => by
      intro hcon
      subst hcon
      exact hn hc)]
    cases n
    rfl

def c7msg : Message := ⟨⟨"", "f@x"⟩, [], [], [], "", "", "", [("a.txt", [9])]⟩

/-- Witness for C7: attaching a successfully read two-byte file under
`dir/a.txt` stores the content under `a.txt`, overwriting the earlier
binding, and the base name drops the directory. -/
theorem C7_attachFile_witness :
    (attachFile (some [1, 2]) c7msg "dir/a.txt").1.Attachments.lookup
        (baseName "dir/a.txt") = some [1, 2] ∧
    baseName ("dir" ++ "/" ++ "a.txt") = "a.txt" :=
  ⟨((C7_attachFile c7msg "dir/a.txt" (some [1, 2])).2.1 [1, 2] rfl).1,
   (C7_attachFile c7msg "dir/a.txt" (some [1, 2])).2.2 "dir" "a.txt" (by decide)⟩

/-- Claim C3: with both bodies non-empty, `ToBytes` opens the
multipart/alternative envelope and emits the HTML body part first, then
the `--<B2>` delimiter line of the alternative boundary, then the
plain-text body part, which is the final part of the alternative
envelope (followed only by the attachment block, if any). -/
theorem C3_html_then_text (m : Message) (w : List Char)
    (hh : m.BodyHtml ≠ "") (ht : m.BodyText ≠ "") :
    toBytes m w =
      headerBlock m ++
        (if 0 < m.Attachments.length then
          contentTypeLineBoundary "multipart/mixed".data (boundaryMixed w)
        else []) ++
        contentTypeLineBoundary "multipart/alternative".data (boundaryAlternative w) ++
        bodyHtmlLine m ++ boundaryLine (boundaryAlternative w) ++ bodyTextLine m ++
        (if 0 < m.Attachments.length then
          attachmentsBlock m.Attachments (boundaryMixed w) ++ ['-', '-']
        else []) := by
  have h2 : 0 < m.BodyHtml.length := string_length_pos hh
  have h3 : 0 < m.BodyText.length := string_length_pos ht
  simp only [toBytes, if_pos (And.intro h2 h3), if_pos h2, if_pos h3]
  simp [List.append_assoc]

def c3msg : Message :=
  ⟨⟨"", "f@x"⟩, [⟨"", "t@x"⟩], [], [], "s", "plain", "<p>h</p>", []⟩

/-- Witness for C3 at a concrete message with both bodies and no
attachments. -/
theorem C3_html_then_text_witness :
    (c3msg.BodyHtml ≠ "" ∧ c3msg.BodyText ≠ "") ∧
    toBytes c3msg ['b'] =
      headerBlock c3msg ++
        (if 0 < c3msg.Attachments.length then
          contentTypeLineBoundary "multipart/mixed".data (boundaryMixed ['b'])
        else []) ++
        contentTypeLineBoundary "multipart/alternative".data (boundaryAlternative ['b']) ++
        bodyHtmlLine c3msg ++ boundaryLine (boundaryAlternative ['b']) ++
        bodyTextLine c3msg ++
        (if 0 < c3msg.Attachments.length then
          attachmentsBlock c3msg.Attachments (boundaryMixed ['b']) ++ ['-', '-']
        else []) :=
  ⟨⟨by decide, by decide⟩, C3_html_then_text c3msg ['b'] (by decide) (by decide)⟩

/-- A list ends with the two characters CR LF. -/
def endsCRLF (l : List Char) : Prop := l.drop (l.length - 2) = ['\r', '\n']

lemma endsCRLF_append (x : List Char) : endsCRLF (x ++ ['\r', '\n']) := by
  unfold endsCRLF
  have hl : (x ++ ['\r', '\n']).length - 2 = x.length := by simp
  rw [hl, List.drop_left]

/-- Claim C6 (amended): the From, To, Cc and Subject header lines are
each terminated by CRLF, the Cc line is part of the header block exactly
when CC is non-empty, and the subject is always wrapped as
`=?UTF-8?B?<base64(subject bytes)>?=`; the `MIME-Version: 1.0` line,
however, is terminated by a bare LF, not CRLF. -/
theorem C6_header_lines (m : Message) :
    endsCRLF (fromLine m) ∧ endsCRLF (toLine m) ∧ endsCRLF (ccLine m) ∧
    endsCRLF (subjectLine m) ∧
    MimeVersionLine = "MIME-Version: 1.0\n".data ∧ ¬ endsCRLF MimeVersionLine ∧
    subjectLine m =
      "Subject: =?UTF-8?B?".data ++ b64encode (strBytes m.Subject) ++ "?=\r\n".data ∧
    headerBlock m =
      fromLine m ++ toLine m ++ (if 0 < m.CC.length then ccLine m else []) ++
        subjectLine m ++ MimeVersionLine := by
  refine ⟨endsCRLF_append _, endsCRLF_append _, endsCRLF_append _, ?_, rfl,
    by unfold endsCRLF; decide, rfl, rfl⟩
  have hs : subjectLine m =
      ("Subject: =?UTF-8?B?".data ++ b64encode (strBytes m.Subject) ++ "?=".data) ++
        ['\r', '\n'] := by
    have hlit : ("?=\r\n".data : List Char) = "?=".data ++ ['\r', '\n'] := by decide
    rw [subjectLine, hlit]
    simp [List.append_assoc]
  rw [hs]
  exact endsCRLF_append _

set_option maxRecDepth 8000 in
/-- Counterexample to claim C6 as stated: in the output for a concrete
message the `MIME-Version: 1.0` line occurs followed by a bare LF and is
never followed by CR — it is not CRLF-terminated. -/
theorem C6_counterexample :
    countOccs "MIME-Version: 1.0\n".data
        (toBytes ⟨⟨"", "f@x"⟩, [⟨"", "t@x"⟩], [], [], "s", "hello", "", []⟩ ['b']) = 1 ∧
    countOccs "MIME-Version: 1.0\r".data
        (toBytes ⟨⟨"", "f@x"⟩, [⟨"", "t@x"⟩], [], [], "s", "hello", "", []⟩ ['b']) = 0 :=
  ⟨by decide, by decide⟩

/-- The pattern `Content-Type:`. -/
def ctPat : List Char := "Content-Type:".data

/-- The boundary delimiter pattern `--<token>` for boundary token `w`. -/
def ddPat (w : List Char) : List Char := '-' :: '-' :: w

lemma countOccs_subjectLine (p : List Char) (hp : p ≠ []) (hq : '?' ∉ p)
    {c : Char} (hc : c ∈ p) (hcs : c ∉ b64charset)
    (hl1 : countOccs p "Subject: =?UTF-8?B".data = 0)
    (hl2 : countOccs p "=\r\n".data = 0) (m : Message) :
    countOccs p (subjectLine m) = 0 := by
  have hdec : subjectLine m =
      "Subject: =?UTF-8?B".data ++ '?' ::
        (b64encode (strBytes m.Subject) ++ '?' :: "=\r\n".data) := by
    have hlit1 : ("Subject: =?UTF-8?B?".data : List Char) =
        "Subject: =?UTF-8?B".data ++ ['?'] := by decide
    have hlit2 : ("?=\r\n".data : List Char) = '?' :: "=\r\n".data := by decide
    rw [subjectLine, hlit1, hlit2]
    simp [List.append_assoc]
  rw [hdec, countOccs_split p hp hq, countOccs_split p hp hq]
  have he : countOccs p (b64encode (strBytes m.Subject)) = 0 := by
    apply countOccs_eq_zero_of_not_mem p hc
    intro hcon
    exact hcs (b64encode_subset _ _ hcon)
  omega

lemma countOccs_append_crlf (p : List Char) (hp : p ≠ []) (hn : '\n' ∉ p)
    (hr : '\r' ∉ p) (content : List Char) :
    countOccs p (content ++ ['\r', '\n']) = countOccs p content := by
  have h2 : countOccs p (['\n'] : List Char) = 0 := by
    have h3 := countOccs_cons_of_not_mem p hp hn ([] : List Char)
    simpa [countOccs] using h3
  rw [countOccs_split p hp hr content ['\n'], h2]
  omega

/-- Additivity of occurrence counting over the flat single-body message
layout `headerBlock ++ bodyLine`, for patterns free of CR and LF. -/
lemma countOccs_header_body (p : List Char) (hp : p ≠ []) (hn : '\n' ∉ p) (hr : '\r' ∉ p)
    (m : Message) (content ct : List Char) :
    countOccs p (headerBlock m ++ bodyLine content ct) =
      countOccs p (fromLine m) + countOccs p (toLine m) +
        (if 0 < m.CC.length then countOccs p (ccLine m) else 0) +
        countOccs p (subjectLine m) + countOccs p MimeVersionLine +
        countOccs p ("Content-Type: ".data ++ ct ++ "; charset=utf-8\r\n\r\n".data) +
        countOccs p content := by
  have hfrom : (fromLine m).getLast? = some '\n' := by
    rw [fromLine, List.getLast?_append]
    rfl
  have hto : (toLine m).getLast? = some '\n' := by
    rw [toLine, List.getLast?_append]
    rfl
  have hcc : (ccLine m).getLast? = some '\n' := by
    rw [ccLine, List.getLast?_append]
    rfl
  have hsub : (subjectLine m).getLast? = some '\n' := by
    rw [subjectLine, List.getLast?_append]
    rfl
  have hmime : MimeVersionLine.getLast? = some '\n' := by decide
  have hct : ("Content-Type: ".data ++ ct ++ "; charset=utf-8\r\n\r\n".data).getLast? =
      some '\n' := by
    rw [List.getLast?_append]
    rfl
  have hcont : (content ++ ['\r', '\n']).getLast? = some '\n' := by
    rw [List.getLast?_append]
    rfl
  by_cases hccpos : 0 < m.CC.length
  · have hflat : headerBlock m ++ bodyLine content ct =
        ([fromLine m, toLine m, ccLine m, subjectLine m, MimeVersionLine,
          "Content-Type: ".data ++ ct ++ "; charset=utf-8\r\n\r\n".data,
          content ++ ['\r', '\n']] : List (List Char)).flatten := by
      simp only [headerBlock, bodyLine, if_pos hccpos, List.flatten_cons,
        List.flatten_nil, List.append_nil]
      simp [List.append_assoc]
    rw [hflat, countOccs_flatten p hp hn _ (by
      intro s hs
      simp only [List.mem_cons] at hs
      rcases hs with rfl | rfl | rfl | rfl | rfl | rfl | rfl | hs
      · exact hfrom
      · exact hto
      · exact hcc
      · exact hsub
      · exact hmime
      · exact hct
      · exact hcont
      · simp at hs)]
    simp only [List.map_cons, List.map_nil, List.sum_cons, List.sum_nil, if_pos hccpos]
    rw [countOccs_append_crlf p hp hn hr content]
    omega
  · have hflat : headerBlock m ++ bodyLine content ct =
        ([fromLine m, toLine m, subjectLine m, MimeVersionLine,
          "Content-Type: ".data ++ ct ++ "; charset=utf-8\r\n\r\n".data,
          content ++ ['\r', '\n']] : List (List Char)).flatten := by
      simp only [headerBlock, bodyLine, if_neg hccpos, List.flatten_cons,
        List.flatten_nil, List.append_nil]
      simp [List.append_assoc]
    rw [hflat, countOccs_flatten p hp hn _ (by
      intro s hs
      simp only [List.mem_cons] at hs
      rcases hs with rfl | rfl | rfl | rfl | rfl | rfl | hs
      · exact hfrom
      · exact hto
      · exact hsub
      · exact hmime
      · exact hct
      · exact hcont
      · simp at hs)]
    simp only [List.map_cons, List.map_nil, List.sum_cons, List.sum_nil, if_neg hccpos]
    rw [countOccs_append_crlf p hp hn hr content]
    omega

/-- Claim C2 (amended): for a message with no attachments and exactly
one non-empty body, the output contains exactly one `Content-Type:`
occurrence and no `--<token>` boundary delimiter of the generated
boundary — provided the rendered From/To/Cc header lines and the body
content do not themselves contain those substrings, and the boundary
token contains no CR or LF (as the writer's random tokens never do). -/
theorem C2_single_part (m : Message) (w : List Char)
    (hatt : m.Attachments = [])
    (hone : (m.BodyText = "" ∧ m.BodyHtml ≠ "") ∨ (m.BodyText ≠ "" ∧ m.BodyHtml = ""))
    (hw : '\r' ∉ w ∧ '\n' ∉ w)
    (h1 : countOccs ctPat (fromLine m) = 0) (h2 : countOccs ctPat (toLine m) = 0)
    (h3 : countOccs ctPat (ccLine m) = 0)
    (h4 : countOccs ctPat m.BodyText.data = 0) (h5 : countOccs ctPat m.BodyHtml.data = 0)
    (h6 : countOccs (ddPat w) (fromLine m) = 0) (h7 : countOccs (ddPat w) (toLine m) = 0)
    (h8 : countOccs (ddPat w) (ccLine m) = 0)
    (h9 : countOccs (ddPat w) m.BodyText.data = 0)
    (h10 : countOccs (ddPat w) m.BodyHtml.data = 0) :
    countOccs ctPat (toBytes m w) = 1 ∧ countOccs (ddPat w) (toBytes m w) = 0 := by
  have hctne : ctPat ≠ [] := by decide
  have hctn : '\n' ∉ ctPat := by decide
  have hctr : '\r' ∉ ctPat := by decide
  have hddne : ddPat w ≠ [] := by simp [ddPat]
  have hddn : '\n' ∉ ddPat w := by
    intro hcon
    simp only [ddPat, List.mem_cons] at hcon
    rcases hcon with h | h | h
    · exact absurd h (by decide)
    · exact absurd h (by decide)
    · exact hw.2 h
  have hddr : '\r' ∉ ddPat w := by
    intro hcon
    simp only [ddPat, List.mem_cons] at hcon
    rcases hcon with h | h | h
    · exact absurd h (by decide)
    · exact absurd h (by decide)
    · exact hw.1 h
  have hmono := countOccs_le_of_patPrefixed (show ['-', '-'] <+: ddPat w from ⟨w, rfl⟩)
  have hsubct : countOccs ctPat (subjectLine m) = 0 :=
    countOccs_subjectLine ctPat hctne (by decide) (show ':' ∈ ctPat by decide)
      (by decide) (by decide) (by decide) m
  have hsubdd0 : countOccs ['-', '-'] (subjectLine m) = 0 :=
    countOccs_subjectLine ['-', '-'] (by decide) (by decide)
      (show '-' ∈ ['-', '-'] by decide) (by decide) (by decide) (by decide) m
  have hsubdd : countOccs (ddPat w) (subjectLine m) = 0 := by
    have hle := hmono (subjectLine m)
    omega
  have hmimect : countOccs ctPat MimeVersionLine = 0 := by decide
  have hmimedd : countOccs (ddPat w) MimeVersionLine = 0 := by
    have hle := hmono MimeVersionLine
    have hz : countOccs ['-', '-'] MimeVersionLine = 0 := by decide
    omega
  rcases hone with ⟨hbt, hbh⟩ | ⟨hbt, hbh⟩
  · -- only the HTML body is present
    have hflat : toBytes m w = headerBlock m ++ bodyLine m.BodyHtml.data "text/html".data := by
      have hBT0 : m.BodyText.length = 0 := by rw [hbt]; rfl
      have hBH : 0 < m.BodyHtml.length := string_length_pos hbh
      simp [toBytes, hatt, hBT0, hBH, bodyHtmlLine]
    constructor
    · rw [hflat, countOccs_header_body ctPat hctne hctn hctr]
      have hccv : (if 0 < m.CC.length then countOccs ctPat (ccLine m) else 0) = 0 := by
        split
        · exact h3
        · rfl
      have hseg1 : countOccs ctPat
          ("Content-Type: ".data ++ "text/html".data ++ "; charset=utf-8\r\n\r\n".data) = 1 := by
        decide
      omega
    · rw [hflat, countOccs_header_body (ddPat w) hddne hddn hddr]
      have hccv : (if 0 < m.CC.length then countOccs (ddPat w) (ccLine m) else 0) = 0 := by
        split
        · exact h8
        · rfl
      have hseg1 : countOccs (ddPat w)
          ("Content-Type: ".data ++ "text/html".data ++ "; charset=utf-8\r\n\r\n".data) = 0 := by
        have hle := hmono
          ("Content-Type: ".data ++ "text/html".data ++ "; charset=utf-8\r\n\r\n".data)
        have hz : countOccs ['-', '-']
            ("Content-Type: ".data ++ "text/html".data ++ "; charset=utf-8\r\n\r\n".data) = 0 := by
          decide
        omega
      omega
  · -- only the plain-text body is present
    have hflat : toBytes m w = headerBlock m ++ bodyLine m.BodyText.data "text/plain".data := by
      have hBH0 : m.BodyHtml.length = 0 := by rw [hbh]; rfl
      have hBT : 0 < m.BodyText.length := string_length_pos hbt
      simp [toBytes, hatt, hBH0, hBT, bodyTextLine]
    constructor
    · rw [hflat, countOccs_header_body ctPat hctne hctn hctr]
      have hccv : (if 0 < m.CC.length then countOccs ctPat (ccLine m) else 0) = 0 := by
        split
        · exact h3
        · rfl
      have hseg1 : countOccs ctPat
          ("Content-Type: ".data ++ "text/plain".data ++ "; charset=utf-8\r\n\r\n".data) = 1 := by
        decide
      omega
    · rw [hflat, countOccs_header_body (ddPat w) hddne hddn hddr]
      have hccv : (if 0 < m.CC.length then countOccs (ddPat w) (ccLine m) else 0) = 0 := by
        split
        · exact h8
        · rfl
      have hseg1 : countOccs (ddPat w)
          ("Content-Type: ".data ++ "text/plain".data ++ "; charset=utf-8\r\n\r\n".data) = 0 := by
        have hle := hmono
          ("Content-Type: ".data ++ "text/plain".data ++ "; charset=utf-8\r\n\r\n".data)
        have hz : countOccs ['-', '-']
            ("Content-Type: ".data ++ "text/plain".data ++ "; charset=utf-8\r\n\r\n".data) = 0 := by
          decide
        omega
      omega

set_option maxRecDepth 8000 in
/-- Counterexample to claim C2 as stated: a message whose body text
itself contains `Content-Type:` has two occurrences in the output, not
exactly one, although it has no attachments and exactly one non-empty
body. -/
theorem C2_counterexample :
    (Message.mk ⟨"", "f@x"⟩ [⟨"", "t@x"⟩] [] [] "s" "Content-Type: x" "" []).Attachments
        = [] ∧
    (Message.mk ⟨"", "f@x"⟩ [⟨"", "t@x"⟩] [] [] "s" "Content-Type: x" "" []).BodyHtml
        = "" ∧
    (Message.mk ⟨"", "f@x"⟩ [⟨"", "t@x"⟩] [] [] "s" "Content-Type: x" "" []).BodyText
        ≠ "" ∧
    countOccs ctPat
        (toBytes (Message.mk ⟨"", "f@x"⟩ [⟨"", "t@x"⟩] [] [] "s" "Content-Type: x" "" [])
          ['b']) = 2 :=
  ⟨rfl, rfl, by decide, by decide⟩

def c2msg : Message :=
  ⟨⟨"", "f@x"⟩, [⟨"", "t@x"⟩], [⟨"", "c@x"⟩], [], "s", "hello", "", []⟩

set_option maxRecDepth 8000 in
/-- Witness for C2 (amended) at a concrete benign message with a Cc
recipient. -/
theorem C2_single_part_witness :
    (c2msg.Attachments = [] ∧
      ((c2msg.BodyText = "" ∧ c2msg.BodyHtml ≠ "") ∨
        (c2msg.BodyText ≠ "" ∧ c2msg.BodyHtml = "")) ∧
      ('\r' ∉ ['b'] ∧ '\n' ∉ ['b']) ∧
      countOccs ctPat (fromLine c2msg) = 0 ∧ countOccs ctPat (toLine c2msg) = 0 ∧
      countOccs ctPat (ccLine c2msg) = 0 ∧ countOccs ctPat c2msg.BodyText.data = 0 ∧
      countOccs ctPat c2msg.BodyHtml.data = 0 ∧
      countOccs (ddPat ['b']) (fromLine c2msg) = 0 ∧
      countOccs (ddPat ['b']) (toLine c2msg) = 0 ∧
      countOccs (ddPat ['b']) (ccLine c2msg) = 0 ∧
      countOccs (ddPat ['b']) c2msg.BodyText.data = 0 ∧
      countOccs (ddPat ['b']) c2msg.BodyHtml.data = 0) ∧
    countOccs ctPat (toBytes c2msg ['b']) = 1 ∧
      countOccs (ddPat ['b']) (toBytes c2msg ['b']) = 0 :=
  ⟨⟨rfl, Or.inr ⟨by decide, rfl⟩, ⟨by decide, by decide⟩, by decide, by decide, by decide,
    by decide, by decide, by decide, by decide, by decide, by decide, by decide⟩,
   C2_single_part c2msg ['b'] rfl (Or.inr ⟨by decide, rfl⟩) ⟨by decide, by decide⟩
     (by decide) (by decide) (by decide) (by decide) (by decide) (by decide) (by decide)
     (by decide) (by decide) (by decide)⟩
